import Mathlib

/-!
Verification of the legal-document analysis backend.

Python strings are modelled as `List Char` (named `Str`) so that every string
operation is a structurally recursive, kernel-reducible function.  Machine
floats that the code only ever stores and passes through (confidence scores,
always literals such as 0.1 / 0.3 / 0.5) are modelled as exact rationals.
The external generation service and the JSON decoder are modelled as
function parameters (oracles), since the code treats their output as opaque
text to be decoded defensively.
-/

/-- Python strings, modelled as lists of characters. -/
abbrev Str := List Char

/-- Coercion from Lean string literals to the model. -/
def str (s : String) : Str := s.data

/-- Characters matched by Python's `\s` / `str.strip` (ASCII whitespace). -/
def isSpaceChar (c : Char) : Bool :=
  c = ' ' || c = '\t' || c = '\n' || c = '\r' || c = '\x0b' || c = '\x0c'

/-- Python `str.strip()`: drop leading and trailing whitespace. -/
def pyStrip (s : Str) : Str :=
  ((s.dropWhile isSpaceChar).reverse.dropWhile isSpaceChar).reverse

/-- Python `s.split(sep)` for a single-character separator. -/
def splitOnChar (sep : Char) : Str → List Str
  | [] => [[]]
  | c :: rest =>
    let r := splitOnChar sep rest
    if c = sep then [] :: r
    else match r with
      | [] => [[c]]
      | p :: ps => (c :: p) :: ps

/-- Numeric value of an all-digit string (callers check `all Char.isDigit`). -/
def digitsToNat (s : Str) : Nat :=
  s.foldl (fun acc c => acc * 10 + (c.toNat - '0'.toNat)) 0

/-- Python substring test `sub in hay`. -/
def substrAt (sub : Str) : Str → Bool
  | [] => sub.isEmpty
  | c :: rest => sub.isPrefixOf (c :: rest) || substrAt sub rest

/-- Decimal digit character, `chr(48 + d)`. -/
def digitChar (d : Nat) : Char := Char.ofNat (48 + d)

/-- Python `str(n)` for a natural number (decimal representation). -/
def natToStr (n : Nat) : Str :=
  if n = 0 then ['0'] else ((Nat.digits 10 n).map digitChar).reverse

/-- Number of days in a month, as validated by Python's `datetime` constructor. -/
def daysInMonth (y m : Nat) : Nat :=
  if m = 2 then
    if y % 4 = 0 && (y % 100 ≠ 0 || y % 400 = 0) then 29 else 28
  else if m = 4 || m = 6 || m = 9 || m = 11 then 30
  else 31

/--
`datetime.strptime(s, "%Y-%m-%d")` (ai_agents.py line 490) as a partial date
parser.  CPython's `_strptime` matches `%Y` against exactly four digits, `%m`
against one or two digits in 1..12, `%d` against one or two digits in 1..31,
requires the whole string to be consumed, and the `datetime` constructor then
validates the day against the month length (and `MINYEAR = 1`).  The result is
encoded as `y*10000 + m*100 + d`, which orders exactly like the `datetime`
value since `m ≤ 12` and `d ≤ 31`.
-/
def parseDateYMD (s : Str) : Option Nat :=
  match splitOnChar '-' s with
  | [ys, ms, ds] =>
    if ys.length = 4 && ys.all Char.isDigit &&
       (ms.length = 1 || ms.length = 2) && ms.all Char.isDigit &&
       (ds.length = 1 || ds.length = 2) && ds.all Char.isDigit then
      let y := digitsToNat ys
      let m := digitsToNat ms
      let d := digitsToNat ds
      if 1 ≤ y && 1 ≤ m && m ≤ 12 && 1 ≤ d && d ≤ daysInMonth y m then
        some (y * 10000 + m * 100 + d)
      else none
    else none
  | _ => none

/-- `ExtractedEvent` (models.py lines 21-27). -/
structure ExtractedEvent where
  date : Str
  event_type : Str
  description : Str
  parties_involved : List Str
  confidence : ℚ
  document_source : Option Str := none
deriving DecidableEq, Repr

/-- Dedup key `(event.date, event.event_type, event.description)` (ai_agents.py line 483). -/
def eventKeyOf (e : ExtractedEvent) : Str × Str × Str := (e.date, e.event_type, e.description)

/--
First pass of `_deduplicate_events` (ai_agents.py lines 479-486): keep the
first occurrence of each `(date, event_type, description)` key, preserving
insertion order; `seen` is the set of keys already emitted.
-/
def dedupGo (seen : List (Str × Str × Str)) : List ExtractedEvent → List ExtractedEvent
  | [] => []
  | e :: rest =>
    if eventKeyOf e ∈ seen then dedupGo seen rest
    else e :: dedupGo (eventKeyOf e :: seen) rest

/-- Sort key of an event; unparseable dates never reach the sort (the code
abandons sorting when any key raises), the `0` branch is unused junk. -/
def dateCode (e : ExtractedEvent) : Nat :=
  match parseDateYMD e.date with
  | some v => v
  | none => 0

/-- Ascending-by-date comparison used by the sort in `_deduplicate_events`. -/
def eventDateLe (a b : ExtractedEvent) : Prop := dateCode a ≤ dateCode b

instance : DecidableRel eventDateLe := fun a b => Nat.decLe (dateCode a) (dateCode b)

instance : IsTotal ExtractedEvent eventDateLe := ⟨fun a b => Nat.le_total (dateCode a) (dateCode b)⟩

instance : IsTrans ExtractedEvent eventDateLe := ⟨fun _ _ _ h h' => Nat.le_trans h h'⟩

/--
`AIAgentOrchestrator._deduplicate_events` (ai_agents.py lines 477-494):
deduplicate, then `deduplicated.sort(key=lambda x: datetime.strptime(x.date,
"%Y-%m-%d"))` inside `try/except: pass`.  CPython's `list.sort` computes all
keys before performing any comparison, so if any key raises the list is left
in its pre-sort order; hence: sort exactly when every date parses.  Python's
sort is stable over a total preorder, which pins the output to that of any
stable sort; it is modelled by `List.insertionSort` (stable).
-/
def deduplicate_events (events : List ExtractedEvent) : List ExtractedEvent :=
  if (dedupGo [] events).all (fun e => (parseDateYMD e.date).isSome) then
    List.insertionSort eventDateLe (dedupGo [] events)
  else dedupGo [] events

/-- Apostrophe character (used inside a cleaned-response marker string). -/
def apos : Char := Char.ofNat 39

/-- The `prefixes_to_remove` list of `_clean_json_response` (ai_agents.py lines 639-652). -/
def prefixes_to_remove : List Str :=
  [str "json", str "JSON", str "```json", str "```JSON", str "```",
   str "Here is the JSON:", str "Here" ++ [apos] ++ str "s the JSON:",
   str "The JSON is:", str "JSON:", str "Response:", str "Output:", str "Result:"]

/-- The `suffixes_to_remove` list of `_clean_json_response` (ai_agents.py lines 660-664). -/
def suffixes_to_remove : List Str :=
  [str "```", str "```json", str "```JSON"]

/-- One pass of the prefix-stripping loop: `if cleaned.startswith(prefix):
cleaned = cleaned[len(prefix):].strip()`. -/
def stripKnownStart (s : Str) : Str :=
  prefixes_to_remove.foldl
    (fun acc p => if p.isPrefixOf acc then pyStrip (acc.drop p.length) else acc) s

/-- One pass of the suffix-stripping loop: `if cleaned.endswith(suffix):
cleaned = cleaned[:-len(suffix)].strip()`. -/
def stripKnownEnd (s : Str) : Str :=
  suffixes_to_remove.foldl
    (fun acc p => if p.isSuffixOf acc then pyStrip (acc.take (acc.length - p.length)) else acc) s

/-- `re.sub(r'^```[a-zA-Z]*\n?', '', cleaned)`: the pattern is anchored, so at
most one leading fence marker is removed. -/
def stripFenceStart (s : Str) : Str :=
  if (str "```").isPrefixOf s then
    match (s.drop 3).dropWhile Char.isAlpha with
    | '\n' :: r => r
    | r => r
  else s

/-- `re.sub(r'\n?```$', '', cleaned)`: removes one trailing fence marker and an
optional newline right before it. -/
def stripFenceEnd (s : Str) : Str :=
  if (str "```").isSuffixOf s then
    let t := s.take (s.length - 3)
    if t.getLast? = some '\n' then t.take (t.length - 1) else t
  else s

/-- `AIAgentOrchestrator._clean_json_response` (ai_agents.py lines 631-676):
strip whitespace, strip the known prose/fence markers from the start and end,
then strip residual fenced-code markers. -/
def clean_json_response (response_content : Str) : Str :=
  stripFenceEnd (stripFenceStart (stripKnownEnd (stripKnownStart (pyStrip response_content))))

/-- `DocumentSummary` (models.py lines 12-19). -/
structure DocumentSummary where
  case_number : Str
  parties : Str
  court : Str
  document_type : Str
  summary : Str
  key_legal_issues : List Str
  confidence : ℚ := 0
deriving DecidableEq, Repr

/-- The fields that `run_document_summarizer` reads (with `.get` defaults) from
the dict decoded out of a summary response; an absent key is `none`. -/
structure SummaryDict where
  case_number : Option Str := none
  parties : Option Str := none
  court : Option Str := none
  document_type : Option Str := none
  summary : Option Str := none
  key_legal_issues : Option (List Str) := none
  confidence : Option ℚ := none
deriving DecidableEq, Repr

/-- The dict returned by `_parse_summary_response` for an empty response
(ai_agents.py lines 376-384). -/
def empty_response_dict : SummaryDict :=
  { case_number := some (str "Unknown"), parties := some (str "Unknown"),
    court := some (str "Unknown"), document_type := some (str "Unknown"),
    summary := some (str "Summary extraction failed - empty response"),
    key_legal_issues := some [str "Analysis failed - empty response"],
    confidence := some (1/10) }

/-- The dict returned by `_parse_summary_response` when JSON decoding fails
with message `e` (ai_agents.py lines 397-405). -/
def json_error_dict (e : Str) : SummaryDict :=
  { case_number := some (str "Unknown"), parties := some (str "Unknown"),
    court := some (str "Unknown"), document_type := some (str "Unknown"),
    summary := some (str "Summary extraction failed - JSON parse error: " ++ e.take 100),
    key_legal_issues := some [str "Analysis failed - JSON error: " ++ e.take 50],
    confidence := some (1/10) }

/-- `AIAgentOrchestrator._parse_summary_response` (ai_agents.py lines 367-405).
`decode` is the oracle for `json.loads` restricted to the fields the caller
reads; `.error e` is a `json.JSONDecodeError` with message `e`.  The function
never raises: empty input and decode failure both produce a degraded dict with
confidence 0.1. -/
def parse_summary_response (decode : Str → Except Str SummaryDict) (response_content : Str) :
    SummaryDict :=
  if pyStrip response_content = [] then empty_response_dict
  else
    match decode (clean_json_response response_content) with
    | .ok d => d
    | .error e => json_error_dict e

/-- One extracted `{filename, content}` record handed to the summarizer. -/
structure ExtractedDoc where
  filename : Str
  content : Str
deriving DecidableEq, Repr

/-- Prompt built for one document (ai_agents.py lines 221-224): the content is
truncated to 8000 characters.  The surrounding instruction text of the
template does not influence any verified property (every theorem quantifies
over the generation oracle), so it is abbreviated here. -/
def summary_prompt_format (document_content filename : Str) : Str :=
  str "Legal document analysis prompt. Document Content: " ++ document_content ++
    str " Filename: " ++ filename

/-- The fallback summary built in the `except` branch of the summarizer loop
(ai_agents.py lines 252-260), confidence 0.1. -/
def fallback_document_summary (td : ExtractedDoc) (e : Str) : DocumentSummary :=
  { case_number := str "Unknown", parties := str "Unknown", court := str "Unknown",
    document_type := str "Unknown",
    summary := str "Processing failed for " ++ td.filename ++ str ": " ++ e,
    key_legal_issues := [str "Analysis failed: " ++ e.take 100],
    confidence := 1/10 }

/-- Body of one iteration of `run_document_summarizer` (ai_agents.py lines
219-262): format the prompt, call the generation service (`llm`), decode, and
build a `DocumentSummary` with `.get` defaults; any generation failure falls
back to a degraded summary with confidence 0.1. -/
def summarize_one (llm : Str → Except Str Str) (decode : Str → Except Str SummaryDict)
    (td : ExtractedDoc) : DocumentSummary :=
  match llm (summary_prompt_format (td.content.take 8000) td.filename) with
  | .error e => fallback_document_summary td e
  | .ok content =>
    let d := parse_summary_response decode content
    { case_number := d.case_number.getD (str "Unknown"),
      parties := d.parties.getD (str "Unknown"),
      court := d.court.getD (str "Unknown"),
      document_type := d.document_type.getD (str "Unknown"),
      summary := d.summary.getD (td.content.take 500),
      key_legal_issues := d.key_legal_issues.getD [str "Analysis pending"],
      confidence := d.confidence.getD (3/10) }

/-- The `for i, text_data in enumerate(extracted_texts)` loop of
`run_document_summarizer`, with `i` the index of the next document; the
generation oracle `llm` is indexed by call position so distinct calls may fail
independently. -/
def runDSLoop (llm : Nat → Str → Except Str Str) (decode : Str → Except Str SummaryDict) :
    Nat → List ExtractedDoc → List DocumentSummary
  | _, [] => []
  | i, td :: rest => summarize_one (llm i) decode td :: runDSLoop llm decode (i + 1) rest

/-- `AIAgentOrchestrator.run_document_summarizer` (ai_agents.py lines 210-265). -/
def run_document_summarizer (llm : Nat → Str → Except Str Str)
    (decode : Str → Except Str SummaryDict) (docs : List ExtractedDoc) : List DocumentSummary :=
  runDSLoop llm decode 0 docs

/-- `AIAgentOrchestrator._parse_events_from_response` (ai_agents.py lines
407-455).  `decode` is the oracle for `json.loads` plus the `isinstance(...,
list)` check (`none` covers both a decode error and a non-list payload);
`validate` is the per-element `ExtractedEvent(...)` construction, `none` when
the element is malformed (the inner `except` skips it).  The element type is
abstract since the code only passes elements to the validator. -/
def parse_events_from_response {α : Type} (decode : Str → Option (List α))
    (validate : α → Option ExtractedEvent) (response_content : Str) : List ExtractedEvent :=
  if pyStrip response_content = [] then []
  else
    match decode (clean_json_response response_content) with
    | none => []
    | some elems => elems.filterMap validate

/-- The per-document lines of the case-summary roll-up
(`f"Document {i+1}: ..."`, ai_agents.py lines 357-358); `i` is the
`enumerate` index, starting at 0, so the printed labels run 1..n. -/
def docLines : Nat → List DocumentSummary → List Str
  | _, [] => []
  | i, s :: rest =>
    (str "Document " ++ natToStr (i + 1) ++ str ": " ++ s.document_type ++ str " - " ++
      s.case_number) :: docLines (i + 1) rest

/-- The deterministic roll-up text built by `generate_case_summary`
(ai_agents.py lines 353-363): document count, one line per document, and the
event count when any events exist, joined by newlines. -/
def case_summary_text (summaries : List DocumentSummary) (events : List ExtractedEvent) : Str :=
  let parts := (str "Documents analyzed: " ++ natToStr summaries.length) :: docLines 0 summaries
  let parts := if events ≠ [] then parts ++ [str "Timeline events: " ++ natToStr events.length]
    else parts
  List.intercalate ['\n'] parts

/-- `AIAgentOrchestrator.generate_case_summary` (ai_agents.py lines 344-365):
raises exactly when no document summaries exist, otherwise builds the local
roll-up (no generation-service call appears in the body). -/
def generate_case_summary (summaries : List DocumentSummary) (events : List ExtractedEvent) :
    Except Str Str :=
  if summaries = [] then
    .error (str "No document summaries available for case summary generation")
  else .ok (case_summary_text summaries events)

/-- `_normalize_name` helper: split a string into maximal whitespace-free
words, accumulating the current word reversed. -/
def wordsGo (cur : Str) : Str → List Str
  | [] => if cur = [] then [] else [cur.reverse]
  | c :: rest =>
    if isSpaceChar c then
      if cur = [] then wordsGo [] rest else cur.reverse :: wordsGo [] rest
    else wordsGo (c :: cur) rest

/-- `re.sub(r'\s+', ' ', s).strip()`: collapse whitespace runs to single
spaces and strip the ends. -/
def collapseWs (s : Str) : Str := List.intercalate [' '] (wordsGo [] s)

/-- Keep exactly the characters of the class `[a-zA-Z0-9\s]`
(`re.sub(r'[^a-zA-Z0-9\s]', '', ...)`). -/
def isNameChar (c : Char) : Bool :=
  ('a' ≤ c && c ≤ 'z') || ('A' ≤ c && c ≤ 'Z') || ('0' ≤ c && c ≤ '9') || isSpaceChar c

/-- `CaseCacheService._normalize_name` (cache_service.py lines 171-176):
lowercase, remove everything outside `[a-zA-Z0-9\s]`, collapse whitespace. -/
def normalize_name (name : Str) : Str :=
  collapseWs ((name.map Char.toLower).filter isNameChar)

/-- Case-identity attributes extracted out of an analysis result. -/
structure CaseInfo where
  case_names : List Str
  case_numbers : List Str
  parties : List Str
  court_name : Str
deriving DecidableEq, Repr

/-- An analysis result as the cache sees it: the case-identity attributes that
`_extract_case_info_from_analysis` digs out of the nested result dict, plus
the rest of the payload (opaque to the cache). -/
structure AnalysisResult where
  info : CaseInfo
  payload : Str
deriving DecidableEq, Repr

/-- `CaseCacheService._extract_case_info_from_analysis` (cache_service.py lines
198-237).  The source walks the nested result dict and dedups each list; the
walk itself is pure and is modelled by carrying the already-extracted
attributes inside `AnalysisResult`, which loses no generality for the cache
behaviour (every theorem quantifies over the attribute lists). -/
def extract_case_info_from_analysis (r : AnalysisResult) :
    List Str × List Str × List Str × Str :=
  (r.info.case_names, r.info.case_numbers, r.info.parties, r.info.court_name)

/-- `CachedCase` (cache_service.py lines 15-28); timestamps are integers
(`datetime` ticks), the file hash is modelled content-faithfully (below). -/
structure CachedCase where
  case_id : Str
  case_names : List Str
  case_numbers : List Str
  parties : List Str
  court_name : Str
  file_hash : List Nat
  analysis_result : AnalysisResult
  cached_at : Int
  last_accessed : Int
  access_count : Nat
  file_names : List Str
deriving DecidableEq, Repr

/-- The in-memory state of `CaseCacheService`: the insertion-ordered
`cached_cases` dict, the `name_index` dict, and a count of synchronous
persistence writes (each `_save_cache` / `_save_name_index` call rewrites a
cache file; the count observes whether any write happened). -/
structure CacheState where
  cached_cases : List (Str × CachedCase)
  name_index : List (Str × Str)
  saves : Nat
deriving DecidableEq, Repr

/-- Python dict lookup `d.get(k)` / `d[k]` on an insertion-ordered
association list (keys are unique, so first match is the match). -/
def dictGet {β : Type} (l : List (Str × β)) (k : Str) : Option β :=
  (l.find? (fun p => p.1 = k)).map (fun p => p.2)

/-- Python dict assignment `d[k] = v`: overwrite in place if the key exists,
otherwise append. -/
def dictSet {β : Type} : List (Str × β) → Str → β → List (Str × β)
  | [], k, v => [(k, v)]
  | (k', v') :: rest, k, v =>
    if k' = k then (k', v) :: rest else (k', v') :: dictSet rest k v

/-- Python dict deletion `del d[k]` (keys are unique, so removing every entry
with the key equals removing the entry). -/
def dictDel {β : Type} (l : List (Str × β)) (k : Str) : List (Str × β) :=
  l.filter (fun p => p.1 ≠ k)

/-- Update the first list element satisfying `p` (the object the scanning
loop mutates in place). -/
def updateFirst {α : Type} (p : α → Bool) (f : α → α) : List α → List α
  | [] => []
  | x :: rest => if p x then f x :: rest else x :: updateFirst p f rest

/-- `CaseCacheService._generate_file_hash` (cache_service.py lines 178-192):
an md5 digest over the concatenated raw file bytes.  The digest is modelled
as the concatenation itself (the spec treats the hash as an injective content
identity; md5 collisions are out of scope). -/
def generate_file_hash (files : List (List Nat)) : List Nat :=
  files.foldl (fun acc f => acc ++ f) []

/-- Access-metadata update performed on every cache hit: `case.last_accessed =
datetime.now(); case.access_count += 1`. -/
def touchCase (now : Int) (p : Str × CachedCase) : Str × CachedCase :=
  (p.1, { p.2 with last_accessed := now, access_count := p.2.access_count + 1 })

/-- `CaseCacheService.check_cache_by_files` (cache_service.py lines 239-253):
scan the cached cases in insertion order for an exact content-hash match; on a
hit update access metadata and persist (`_save_cache`), on a miss change
nothing. -/
def check_cache_by_files (s : CacheState) (files : List (List Nat)) (now : Int) :
    Option AnalysisResult × CacheState :=
  let h := generate_file_hash files
  match s.cached_cases.find? (fun p => p.2.file_hash = h) with
  | some p =>
    (some p.2.analysis_result,
     { s with cached_cases := updateFirst (fun q => q.2.file_hash = h) (touchCase now) s.cached_cases,
              saves := s.saves + 1 })
  | none => (none, s)

/-- First pass of `check_cache_by_content` (cache_service.py lines 297-310):
exact name-index lookup of each search term, in order; a term whose indexed
case id is stale (not in `cached_cases`) is skipped. -/
def contentIndexHit (s : CacheState) (search_terms : List Str) : Option (Str × CachedCase) :=
  search_terms.findSome? (fun t =>
    match dictGet s.name_index t with
    | some cid =>
      match dictGet s.cached_cases cid with
      | some c => some (cid, c)
      | none => none
    | none => none)

/-- Fuzzy pass predicate of `check_cache_by_content` (cache_service.py lines
312-338): substring containment in either direction between each normalized
case name (then each normalized party) and each search term, accepted only
when both strings exceed length 5. -/
def fuzzyHit (search_terms : List Str) (c : CachedCase) : Bool :=
  c.case_names.any (fun n =>
    let nn := normalize_name n
    search_terms.any (fun t =>
      (substrAt t nn || substrAt nn t) && decide (t.length > 5) && decide (nn.length > 5)))
  || c.parties.any (fun q =>
    let nq := normalize_name q
    search_terms.any (fun t =>
      (substrAt t nq || substrAt nq t) && decide (t.length > 5) && decide (nq.length > 5)))

/-- `CaseCacheService.check_cache_by_content` (cache_service.py lines 255-340),
given the prepared search terms.  (Term preparation from the file names, lines
258-295, is a pure computation that never touches the cache state; the
theorems quantify over the prepared terms.)  Both hit paths update access
metadata and persist; the miss path changes nothing. -/
def check_cache_by_content (s : CacheState) (search_terms : List Str) (now : Int) :
    Option AnalysisResult × CacheState :=
  match contentIndexHit s search_terms with
  | some p =>
    (some p.2.analysis_result,
     { s with cached_cases := updateFirst (fun q => q.1 = p.1) (touchCase now) s.cached_cases,
              saves := s.saves + 1 })
  | none =>
    match s.cached_cases.find? (fun p => fuzzyHit search_terms p.2) with
    | some p =>
      (some p.2.analysis_result,
       { s with cached_cases :=
            updateFirst (fun q => fuzzyHit search_terms q.2) (touchCase now) s.cached_cases,
                saves := s.saves + 1 })
    | none => (none, s)

/-- The candidate case ids tried by the collision loop of `cache_analysis`:
the base id, then `f"{original_case_id}_{counter}"` for `counter = 1, 2, ...`. -/
def candAt (orig : Str) : Nat → Str
  | 0 => orig
  | Nat.succ n => orig ++ '_' :: natToStr (n + 1)

/-- The `while case_id in self.cached_cases` loop of `cache_analysis`
(cache_service.py lines 359-363): the result is the first candidate id not
already present.  Among the first `keys.length + 1` (pairwise distinct)
candidates at least one is fresh, so the bounded search below returns exactly
the loop's result. -/
def fresh_case_id (keys : List Str) (orig : Str) : Str :=
  match (List.range (keys.length + 1)).find? (fun i => !(decide (candAt orig i ∈ keys))) with
  | some i => candAt orig i
  | none => orig

/-- The base name that `cache_analysis` derives (cache_service.py lines
348-354): first case name, else first two parties joined with `" vs "`, else
`"unknown_case"`. -/
def base_name_of (r : AnalysisResult) : Str :=
  match r.info.case_names, r.info.parties with
  | n :: _, _ => n
  | [], _ :: _ => List.intercalate (str " vs ") (r.info.parties.take 2)
  | [], [] => str "unknown_case"

/-- The pre-collision case id (cache_service.py line 356): the normalized base
name as a slug plus the date suffix `today = strftime('%Y%m%d')`. -/
def original_case_id_of (r : AnalysisResult) (today : Str) : Str :=
  ((normalize_name (base_name_of r)).map (fun c => if c = ' ' then '_' else c)) ++ '_' :: today

/-- The unique case id picked by `cache_analysis` after collision resolution. -/
def new_case_id (s : CacheState) (r : AnalysisResult) (today : Str) : Str :=
  fresh_case_id (s.cached_cases.map Prod.fst) (original_case_id_of r today)

/-- The `CachedCase` record built by `cache_analysis` (cache_service.py lines
366-380). -/
def new_cached_case (s : CacheState) (files : List (List Nat)) (file_names : List Str)
    (r : AnalysisResult) (now : Int) (today : Str) : CachedCase :=
  { case_id := new_case_id s r today,
    case_names := r.info.case_names, case_numbers := r.info.case_numbers,
    parties := r.info.parties, court_name := r.info.court_name,
    file_hash := generate_file_hash files, analysis_result := r,
    cached_at := now, last_accessed := now, access_count := 1, file_names := file_names }

/-- The name-index update of `cache_analysis` (cache_service.py lines
385-389): index every non-blank alias under its normalized form, last write
wins. -/
def index_all_names (idx : List (Str × Str)) (r : AnalysisResult) (file_names : List Str)
    (case_id : Str) : List (Str × Str) :=
  (r.info.case_names ++ r.info.case_numbers ++ r.info.parties ++ file_names).foldl
    (fun ix name => if pyStrip name ≠ [] then dictSet ix (normalize_name name) case_id else ix)
    idx

/-- `CaseCacheService.cache_analysis` (cache_service.py lines 342-396).
`today` is `datetime.now().strftime('%Y%m%d')` and `now` the timestamp used
for `cached_at` / `last_accessed`.  Derives the base name, builds the slug
id with date suffix, disambiguates collisions, stores the case, indexes every
non-blank alias, and persists both files (`_save_cache`, `_save_name_index`). -/
def cache_analysis (s : CacheState) (files : List (List Nat)) (file_names : List Str)
    (analysis_result : AnalysisResult) (now : Int) (today : Str) : Str × CacheState :=
  (new_case_id s analysis_result today,
   { cached_cases := dictSet s.cached_cases (new_case_id s analysis_result today)
       (new_cached_case s files file_names analysis_result now today),
     name_index := index_all_names s.name_index analysis_result file_names
       (new_case_id s analysis_result today),
     saves := s.saves + 2 })

/-- All alias strings of a cached case, in the order the eviction loop walks
them (cache_service.py line 462). -/
def caseAliases (c : CachedCase) : List Str :=
  c.case_names ++ c.case_numbers ++ c.parties ++ c.file_names

/-- The name-index cleanup for one evicted case (cache_service.py lines
461-465): delete each normalized alias, but only when it still points at the
evicted case. -/
def removeCaseAliases (idx : List (Str × Str)) (cid : Str) (c : CachedCase) :
    List (Str × Str) :=
  (caseAliases c).foldl
    (fun ix name =>
      let nn := normalize_name name
      if dictGet ix nn = some cid then dictDel ix nn else ix)
    idx

/-- Eviction of one case id from the state (body of the `for case_id in
to_remove` loop, cache_service.py lines 459-468). -/
def evictOne (s : CacheState) (cid : Str) : CacheState :=
  match dictGet s.cached_cases cid with
  | none => s
  | some c =>
    { s with name_index := removeCaseAliases s.name_index cid c,
             cached_cases := dictDel s.cached_cases cid }

/-- The `to_remove` list of `clear_old_cache` (cache_service.py lines
454-457): ids of the cases whose `last_accessed` precedes the cutoff. -/
def evictedIds (s : CacheState) (cutoff : Int) : List Str :=
  (s.cached_cases.filter (fun p => p.2.last_accessed < cutoff)).map Prod.fst

/-- `CaseCacheService.clear_old_cache` (cache_service.py lines 450-475):
collect the cases with `last_accessed < now - days`, evict each (cache entry
plus its still-owned aliases), persist both files when anything was removed,
and return the removed count. -/
def clear_old_cache (s : CacheState) (now : Int) (days : Int) : Nat × CacheState :=
  ((evictedIds s (now - days)).length,
   if evictedIds s (now - days) ≠ [] then
     { (evictedIds s (now - days)).foldl evictOne s with
         saves := ((evictedIds s (now - days)).foldl evictOne s).saves + 2 }
   else (evictedIds s (now - days)).foldl evictOne s)

/-- Job status values (models.py lines 6-10). -/
inductive PyJobStatus where
  | uploaded
  | processing
  | completed
  | failed
deriving DecidableEq, Repr

/-- The job fields the progress contract concerns (main.py `jobs[job_id]`
entries): status, progress, and whether upload found a cached result. -/
structure PyJob where
  status : PyJobStatus
  progress : Nat
  cached_result : Bool
deriving DecidableEq, Repr

/-- Job creation at upload (main.py lines 128-168): progress 0 in state
`uploaded`, or - on a cache hit - progress 100 in state `completed`. -/
def uploadJob (cacheHit : Bool) : PyJob :=
  if cacheHit then { status := .completed, progress := 100, cached_result := true }
  else { status := .uploaded, progress := 0, cached_result := false }

/-- The job-state transitions performed by `analyze_documents` (main.py lines
216-222) and by the stages of `process_documents` (main.py lines 646-758).
Each pipeline stage runs only when the previous one has finished, which the
relation records through the progress checkpoint reached so far; any stage
may raise, moving the job to `failed` with its progress untouched (main.py
lines 755-758). -/
inductive JobStep : PyJob → PyJob → Prop
  | analyze (j : PyJob) : j.cached_result = false → j.status = .uploaded →
      JobStep j { status := .processing, progress := 10, cached_result := j.cached_result }
  | extract_text (j : PyJob) : j.status = .processing → j.progress = 10 →
      JobStep j { status := .processing, progress := 20, cached_result := j.cached_result }
  | summarize (j : PyJob) : j.status = .processing → j.progress = 20 →
      JobStep j { status := .processing, progress := 40, cached_result := j.cached_result }
  | extract_events (j : PyJob) : j.status = .processing → j.progress = 40 →
      JobStep j { status := .processing, progress := 60, cached_result := j.cached_result }
  | case_summary (j : PyJob) : j.status = .processing → j.progress = 60 →
      JobStep j { status := .processing, progress := 80, cached_result := j.cached_result }
  | recommend (j : PyJob) : j.status = .processing → j.progress = 80 →
      JobStep j { status := .processing, progress := 90, cached_result := j.cached_result }
  | finalize (j : PyJob) : j.status = .processing → j.progress = 90 →
      JobStep j { status := .completed, progress := 100, cached_result := j.cached_result }
  | fail (j : PyJob) : j.status = .processing →
      JobStep j { status := .failed, progress := j.progress, cached_result := j.cached_result }

/-- The fixed progress checkpoints of the pipeline (spec section 4.1). -/
def Checkpoints : List Nat := [0, 10, 20, 40, 60, 80, 90, 100]

/-- Sample event with a parseable date (for concrete witnesses). -/
def sampleEventA : ExtractedEvent :=
  { date := str "2024-02-01", event_type := str "hearing", description := str "first hearing",
    parties_involved := [], confidence := 1 }

/-- Second sample event with an earlier parseable date. -/
def sampleEventB : ExtractedEvent :=
  { date := str "2024-01-15", event_type := str "filing", description := str "petition filed",
    parties_involved := [], confidence := 1 }

/-- Sample event whose date does not parse as `YYYY-MM-DD`. -/
def sampleEventU : ExtractedEvent :=
  { date := str "Unknown", event_type := str "order", description := str "order passed",
    parties_involved := [], confidence := 1 }

/-- Default values used with `List.getD` in indexed statements. -/
def defaultExtractedDoc : ExtractedDoc := { filename := [], content := [] }

/-- Default summary value used with `List.getD` in indexed statements. -/
def defaultDocumentSummary : DocumentSummary :=
  { case_number := [], parties := [], court := [], document_type := [], summary := [],
    key_legal_issues := [], confidence := 0 }

/-- Sample extracted document (for concrete witnesses). -/
def sampleDoc : ExtractedDoc :=
  { filename := str "petition.pdf", content := str "Petition content" }

/-- Generation oracle that always fails (for concrete witnesses). -/
def sampleLLMFail : Nat → Str → Except Str Str := fun _ _ => .error (str "service down")

/-- Summary decoder that always fails (for concrete witnesses). -/
def sampleDecodeFail : Str → Except Str SummaryDict := fun _ => .error (str "bad json")

/-- Sample case-identity attributes (for concrete witnesses). -/
def sampleInfo : CaseInfo :=
  { case_names := [str "Manjunath vs Ashwini"], case_numbers := [str "MC 123 of 2024"],
    parties := [str "Manjunath", str "Ashwini"], court_name := str "Family Court" }

/-- Sample analysis result (for concrete witnesses). -/
def sampleAnalysis : AnalysisResult := { info := sampleInfo, payload := str "analysis" }

/-- The empty cache state (fresh service with no persisted data). -/
def emptyCacheState : CacheState := { cached_cases := [], name_index := [], saves := 0 }

/-- Sample cached case last accessed at time 60 (for the eviction witness). -/
def sampleCachedCase : CachedCase :=
  { case_id := str "case_a", case_names := [str "Case A"], case_numbers := [],
    parties := [], court_name := [], file_hash := [1, 2], analysis_result := sampleAnalysis,
    cached_at := 0, last_accessed := 60, access_count := 1, file_names := [str "a.pdf"] }

/-- Sample one-case cache state (for the eviction witness). -/
def sampleState : CacheState :=
  { cached_cases := [(str "case_a", sampleCachedCase)],
    name_index := [(normalize_name (str "Case A"), str "case_a")], saves := 0 }

theorem dedupGo_cons_mem {seen : List (Str × Str × Str)} {e : ExtractedEvent}
    (rest : List ExtractedEvent) (h : eventKeyOf e ∈ seen) :
    dedupGo seen (e :: rest) = dedupGo seen rest := by
  simp [dedupGo, h]

theorem dedupGo_cons_new {seen : List (Str × Str × Str)} {e : ExtractedEvent}
    (rest : List ExtractedEvent) (h : eventKeyOf e ∉ seen) :
    dedupGo seen (e :: rest) = e :: dedupGo (eventKeyOf e :: seen) rest := by
  simp [dedupGo, h]

theorem dedupGo_keys (l : List ExtractedEvent) :
    ∀ seen, ((dedupGo seen l).map eventKeyOf).Nodup ∧
      ∀ k ∈ (dedupGo seen l).map eventKeyOf, k ∉ seen := by
  induction l with
  | nil => intro seen; simp [dedupGo]
  | cons e rest ih =>
    intro seen
    by_cases h : eventKeyOf e ∈ seen
    · simpa [dedupGo_cons_mem rest h] using ih seen
    · have ih' := ih (eventKeyOf e :: seen)
      rw [dedupGo_cons_new rest h]
      constructor
      · rw [List.map_cons, List.nodup_cons]
        exact ⟨fun hk => (ih'.2 _ hk) (List.mem_cons_self _ _), ih'.1⟩
      · intro k hk
        rw [List.map_cons, List.mem_cons] at hk
        rcases hk with hk | hk
        · simpa [hk] using h
        · exact fun hs => (ih'.2 _ hk) (List.mem_cons_of_mem _ hs)

theorem dedupGo_eq_self (l : List ExtractedEvent) :
    ∀ seen, (l.map eventKeyOf).Nodup → (∀ e ∈ l, eventKeyOf e ∉ seen) →
      dedupGo seen l = l := by
  induction l with
  | nil => intro seen _ _; rfl
  | cons e rest ih =>
    intro seen hnd hdis
    have he : eventKeyOf e ∉ seen := hdis e (List.mem_cons_self _ _)
    rw [List.map_cons, List.nodup_cons] at hnd
    rw [dedupGo_cons_new rest he]
    congr 1
    refine ih _ hnd.2 ?_
    intro x hx
    rw [List.mem_cons]
    rintro (hk | hk)
    · exact hnd.1 (hk ▸ List.mem_map_of_mem eventKeyOf hx)
    · exact hdis x (List.mem_cons_of_mem _ hx) hk

theorem dedupGo_subset (l : List ExtractedEvent) :
    ∀ seen, ∀ e ∈ dedupGo seen l, e ∈ l := by
  induction l with
  | nil => intro seen e he; simp [dedupGo] at he
  | cons x rest ih =>
    intro seen e he
    by_cases h : eventKeyOf x ∈ seen
    · rw [dedupGo_cons_mem rest h] at he
      exact List.mem_cons_of_mem _ (ih seen e he)
    · rw [dedupGo_cons_new rest h, List.mem_cons] at he
      rcases he with he | he
      · exact he ▸ List.mem_cons_self _ _
      · exact List.mem_cons_of_mem _ (ih _ e he)

theorem dedupGo_covers (l : List ExtractedEvent) :
    ∀ seen, ∀ e ∈ l, eventKeyOf e ∈ seen ∨
      ∃ x ∈ dedupGo seen l, eventKeyOf x = eventKeyOf e := by
  induction l with
  | nil => intro seen e he; cases he
  | cons y rest ih =>
    intro seen e he
    rcases List.mem_cons.mp he with he | he
    · subst he
      by_cases hy : eventKeyOf e ∈ seen
      · exact Or.inl hy
      · exact Or.inr ⟨e, by rw [dedupGo_cons_new rest hy]; exact List.mem_cons_self _ _, rfl⟩
    · by_cases hy : eventKeyOf y ∈ seen
      · rcases ih seen e he with h | ⟨x, hx, hk⟩
        · exact Or.inl h
        · exact Or.inr ⟨x, by rw [dedupGo_cons_mem rest hy]; exact hx, hk⟩
      · rcases ih (eventKeyOf y :: seen) e he with h | ⟨x, hx, hk⟩
        · rcases List.mem_cons.mp h with h | h
          · refine Or.inr ⟨y, ?_, h.symm⟩
            rw [dedupGo_cons_new rest hy]
            exact List.mem_cons_self _ _
          · exact Or.inl h
        · refine Or.inr ⟨x, ?_, hk⟩
          rw [dedupGo_cons_new rest hy]
          exact List.mem_cons_of_mem _ hx

/-- C2: if every event's date string parses as `YYYY-MM-DD`, the output of
`_deduplicate_events` is sorted ascending by date; if any one event's date
fails to parse, the sort is abandoned entirely and the output equals the
deduplicated (pre-sort) list unchanged - no partially sorted output exists. -/
theorem deduplicate_events_sort_spec (events : List ExtractedEvent) :
    ((∀ e ∈ events, (parseDateYMD e.date).isSome) →
      List.Sorted eventDateLe (deduplicate_events events)) ∧
    ((∃ e ∈ events, parseDateYMD e.date = none) →
      deduplicate_events events = dedupGo [] events) := by
  constructor
  · intro h
    have hall : (dedupGo [] events).all (fun e => (parseDateYMD e.date).isSome) = true := by
      rw [List.all_eq_true]
      intro e he
      simpa using h e (dedupGo_subset events [] e he)
    rw [deduplicate_events, if_pos hall]
    exact List.sorted_insertionSort eventDateLe (dedupGo [] events)
  · rintro ⟨e, he, hne⟩
    rcases dedupGo_covers events [] e he with h | ⟨x, hx, hk⟩
    · cases h
    · have hxd : x.date = e.date := congrArg Prod.fst hk
      have hall : (dedupGo [] events).all (fun e => (parseDateYMD e.date).isSome) = false := by
        rw [List.all_eq_false]
        exact ⟨x, hx, by simp [hxd, hne]⟩
      rw [deduplicate_events, hall]
      simp

/-- Witness for C2 at concrete inputs: two parseable out-of-order events get
sorted; a single unparseable date leaves the dedup order unchanged. -/
theorem deduplicate_events_sort_spec_witness :
    List.Sorted eventDateLe (deduplicate_events [sampleEventA, sampleEventB]) ∧
      deduplicate_events [sampleEventU, sampleEventA] =
        dedupGo [] [sampleEventU, sampleEventA] :=
  ⟨(deduplicate_events_sort_spec [sampleEventA, sampleEventB]).1 (by decide),
   (deduplicate_events_sort_spec [sampleEventU, sampleEventA]).2
     ⟨sampleEventU, by decide, by decide⟩⟩

/-- C3: `_deduplicate_events` is idempotent - applying it to its own output
returns that output unchanged. -/
theorem deduplicate_events_idempotent (events : List ExtractedEvent) :
    deduplicate_events (deduplicate_events events) = deduplicate_events events := by
  by_cases hall : (dedupGo [] events).all (fun e => (parseDateYMD e.date).isSome) = true
  · have hinner : deduplicate_events events = List.insertionSort eventDateLe (dedupGo [] events) := by
      rw [deduplicate_events, if_pos hall]
    have hperm : List.Perm (List.insertionSort eventDateLe (dedupGo [] events))
        (dedupGo [] events) :=
      List.perm_insertionSort eventDateLe (dedupGo [] events)
    have hnd : ((List.insertionSort eventDateLe (dedupGo [] events)).map eventKeyOf).Nodup :=
      ((hperm.map eventKeyOf).nodup_iff).mpr (dedupGo_keys events []).1
    have hded : dedupGo [] (List.insertionSort eventDateLe (dedupGo [] events)) =
        List.insertionSort eventDateLe (dedupGo [] events) :=
      dedupGo_eq_self _ [] hnd (by intro e _; exact List.not_mem_nil _)
    have hall2 : (dedupGo [] (List.insertionSort eventDateLe (dedupGo [] events))).all
        (fun e => (parseDateYMD e.date).isSome) = true := by
      rw [hded, List.all_eq_true]
      intro e he
      exact (List.all_eq_true.mp hall) e (hperm.mem_iff.mp he)
    rw [hinner, deduplicate_events, if_pos hall2, hded]
    exact List.Sorted.insertionSort_eq (List.sorted_insertionSort eventDateLe (dedupGo [] events))
  · have hinner : deduplicate_events events = dedupGo [] events := by
      rw [deduplicate_events, if_neg hall]
    have hded : dedupGo [] (dedupGo [] events) = dedupGo [] events :=
      dedupGo_eq_self _ [] (dedupGo_keys events []).1 (by intro e _; exact List.not_mem_nil _)
    rw [hinner, deduplicate_events, hded, if_neg hall]

theorem runDSLoop_length (llm : Nat → Str → Except Str Str)
    (decode : Str → Except Str SummaryDict) :
    ∀ (docs : List ExtractedDoc) (base : Nat),
      (runDSLoop llm decode base docs).length = docs.length := by
  intro docs
  induction docs with
  | nil => intro base; rfl
  | cons td rest ih => intro base; simp [runDSLoop, ih (base + 1)]

theorem runDSLoop_getD (llm : Nat → Str → Except Str Str)
    (decode : Str → Except Str SummaryDict) :
    ∀ (docs : List ExtractedDoc) (base i : Nat), i < docs.length →
      (runDSLoop llm decode base docs).getD i defaultDocumentSummary =
        summarize_one (llm (base + i)) decode (docs.getD i defaultExtractedDoc) := by
  intro docs
  induction docs with
  | nil => intro base i hi; cases hi
  | cons td rest ih =>
    intro base i hi
    cases i with
    | zero => simp [runDSLoop, List.getD]
    | succ i =>
      have hi' : i < rest.length := Nat.lt_of_succ_lt_succ hi
      have := ih (base + 1) i hi'
      simpa [runDSLoop, List.getD, Nat.add_assoc, Nat.add_comm 1 i] using this

theorem summarize_one_confidence_degraded (llm : Str → Except Str Str)
    (decode : Str → Except Str SummaryDict) (td : ExtractedDoc) (c : Str)
    (hllm : llm (summary_prompt_format (td.content.take 8000) td.filename) = .ok c)
    (hbad : pyStrip c = [] ∨ ∃ e, decode (clean_json_response c) = .error e) :
    (summarize_one llm decode td).confidence = 1/10 := by
  rw [summarize_one, hllm]
  by_cases hempty : pyStrip c = []
  · simp [parse_summary_response, hempty, empty_response_dict]
  · rcases hbad with hbad | ⟨e, hdec⟩
    · exact absurd hbad hempty
    · simp [parse_summary_response, hempty, hdec, json_error_dict]

/-- C1: `run_document_summarizer` returns exactly one `DocumentSummary` per
input document, in input order (the `i`-th output is produced from the `i`-th
document), no matter which generation calls fail; a document whose generation
call fails yields the degraded fallback summary (confidence 0.1), and a
document whose response decoding fails (empty or unparseable response) also
yields confidence 0.1, instead of the call aborting. -/
theorem run_document_summarizer_spec (llm : Nat → Str → Except Str Str)
    (decode : Str → Except Str SummaryDict) (docs : List ExtractedDoc) :
    (run_document_summarizer llm decode docs).length = docs.length ∧
    (∀ i, i < docs.length →
      (run_document_summarizer llm decode docs).getD i defaultDocumentSummary =
        summarize_one (llm i) decode (docs.getD i defaultExtractedDoc)) ∧
    (∀ i e, i < docs.length →
      llm i (summary_prompt_format ((docs.getD i defaultExtractedDoc).content.take 8000)
          (docs.getD i defaultExtractedDoc).filename) = .error e →
      (run_document_summarizer llm decode docs).getD i defaultDocumentSummary =
          fallback_document_summary (docs.getD i defaultExtractedDoc) e ∧
        ((run_document_summarizer llm decode docs).getD i defaultDocumentSummary).confidence
          = 1/10) ∧
    (∀ i c, i < docs.length →
      llm i (summary_prompt_format ((docs.getD i defaultExtractedDoc).content.take 8000)
          (docs.getD i defaultExtractedDoc).filename) = .ok c →
      (pyStrip c = [] ∨ ∃ e, decode (clean_json_response c) = .error e) →
      ((run_document_summarizer llm decode docs).getD i defaultDocumentSummary).confidence
        = 1/10) := by
  refine ⟨runDSLoop_length llm decode docs 0, ?_, ?_, ?_⟩
  · intro i hi
    simpa using runDSLoop_getD llm decode docs 0 i hi
  · intro i e hi hllm
    have hg := runDSLoop_getD llm decode docs 0 i hi
    rw [Nat.zero_add] at hg
    rw [run_document_summarizer, hg]
    constructor
    · rw [summarize_one, hllm]
    · rw [summarize_one, hllm]
      rfl
  · intro i c hi hllm hbad
    have hg := runDSLoop_getD llm decode docs 0 i hi
    rw [Nat.zero_add] at hg
    rw [run_document_summarizer, hg]
    exact summarize_one_confidence_degraded (llm i) decode _ c hllm hbad

/-- Witness for C1 at a concrete input: with a generation service that always
fails, a one-document batch still yields one summary, with confidence 0.1. -/
theorem run_document_summarizer_spec_witness :
    (run_document_summarizer sampleLLMFail sampleDecodeFail [sampleDoc]).length
        = [sampleDoc].length ∧
      ((run_document_summarizer sampleLLMFail sampleDecodeFail [sampleDoc]).getD 0
          defaultDocumentSummary).confidence = 1/10 :=
  ⟨(run_document_summarizer_spec sampleLLMFail sampleDecodeFail [sampleDoc]).1,
   ((run_document_summarizer_spec sampleLLMFail sampleDecodeFail [sampleDoc]).2.2.1 0
      (str "service down") (by decide) rfl).2⟩

/-- C4: when `_parse_events_from_response` decodes a JSON list successfully,
each element is validated independently - the output is exactly the list of
well-formed elements (malformed ones are skipped, well-formed ones kept), so
the call never fails, and never returns empty, solely because one element of
the list is bad. -/
theorem parse_events_from_response_spec {α : Type} (decode : Str → Option (List α))
    (validate : α → Option ExtractedEvent) (rc : Str) (elems : List α)
    (h1 : pyStrip rc ≠ []) (h2 : decode (clean_json_response rc) = some elems) :
    parse_events_from_response decode validate rc = elems.filterMap validate ∧
    ((∃ x ∈ elems, (validate x).isSome) →
      parse_events_from_response decode validate rc ≠ []) := by
  have hmain : parse_events_from_response decode validate rc = elems.filterMap validate := by
    rw [parse_events_from_response, if_neg h1, h2]
  refine ⟨hmain, ?_⟩
  rintro ⟨x, hx, hv⟩ hnil
  rw [hmain, List.filterMap_eq_nil_iff] at hnil
  rw [hnil x hx] at hv
  cases hv

/-- Witness for C4 at a concrete input: a two-element decoded list with one
malformed element yields exactly the valid element, not an empty result. -/
theorem parse_events_from_response_spec_witness :
    parse_events_from_response (fun _ : Str => some [0, 1])
        (fun n => if n = 0 then none else some sampleEventA) (str "x")
      = [0, 1].filterMap (fun n => if n = 0 then none else some sampleEventA) ∧
    parse_events_from_response (fun _ : Str => some [0, 1])
        (fun n => if n = 0 then none else some sampleEventA) (str "x") ≠ [] :=
  have h := parse_events_from_response_spec (fun _ : Str => some [0, 1])
    (fun n => if n = 0 then none else some sampleEventA) (str "x") [0, 1] (by decide) rfl
  ⟨h.1, h.2 ⟨1, by decide, by decide⟩⟩

/-- C7: the deterministic case-summary synthesis fails exactly when the list
of document summaries is empty; on any non-empty list it succeeds with the
local roll-up text (the function body contains no generation-service call:
its success value is the pure `case_summary_text`). -/
theorem generate_case_summary_spec (summaries : List DocumentSummary)
    (events : List ExtractedEvent) :
    ((∃ t, generate_case_summary summaries events = .ok t) ↔ summaries ≠ []) ∧
    (summaries ≠ [] →
      generate_case_summary summaries events = .ok (case_summary_text summaries events)) := by
  constructor
  · by_cases h : summaries = []
    · simp [generate_case_summary, h]
    · simp [generate_case_summary, h]
  · intro h
    rw [generate_case_summary, if_neg h]

/-- Witness for C7 at a concrete input: a single-summary list succeeds with
the roll-up text. -/
theorem generate_case_summary_spec_witness :
    generate_case_summary [defaultDocumentSummary] []
      = .ok (case_summary_text [defaultDocumentSummary] []) :=
  (generate_case_summary_spec [defaultDocumentSummary] []).2 (by decide)

theorem length_le_of_nodup_subset {α : Type} [DecidableEq α] {l₁ l₂ : List α}
    (h : l₁.Nodup) (hs : l₁ ⊆ l₂) : l₁.length ≤ l₂.length :=
  calc l₁.length = l₁.toFinset.card := (List.toFinset_card_of_nodup h).symm
    _ ≤ l₂.toFinset.card := Finset.card_le_card (fun a ha => by
        rw [List.mem_toFinset] at *
        exact hs ha)
    _ ≤ l₂.length := l₂.toFinset_card_le

theorem digitChar_inj : ∀ d₁, d₁ < 10 → ∀ d₂, d₂ < 10 → digitChar d₁ = digitChar d₂ →
    d₁ = d₂ := by decide

theorem map_digitChar_inj : ∀ (l₁ l₂ : List Nat), (∀ x ∈ l₁, x < 10) → (∀ x ∈ l₂, x < 10) →
    l₁.map digitChar = l₂.map digitChar → l₁ = l₂ := by
  intro l₁
  induction l₁ with
  | nil =>
    intro l₂ _ _ h
    cases l₂ with
    | nil => rfl
    | cons y m => simp at h
  | cons x l ih =>
    intro l₂ h1 h2 h
    cases l₂ with
    | nil => simp at h
    | cons y m =>
      rw [List.map_cons, List.map_cons, List.cons_eq_cons] at h
      have hx := digitChar_inj x (h1 x (List.mem_cons_self _ _)) y
        (h2 y (List.mem_cons_self _ _)) h.1
      have hm := ih m (fun z hz => h1 z (List.mem_cons_of_mem _ hz))
        (fun z hz => h2 z (List.mem_cons_of_mem _ hz)) h.2
      rw [hx, hm]

theorem natToStr_succ_inj {a b : Nat} (h : natToStr (a + 1) = natToStr (b + 1)) : a = b := by
  rw [natToStr, natToStr, if_neg (Nat.succ_ne_zero a), if_neg (Nat.succ_ne_zero b)] at h
  have hmap := List.reverse_injective h
  have hdig := map_digitChar_inj _ _
    (fun x hx => Nat.digits_lt_base (by norm_num) hx)
    (fun x hx => Nat.digits_lt_base (by norm_num) hx) hmap
  have := congrArg (Nat.ofDigits 10) hdig
  rw [Nat.ofDigits_digits, Nat.ofDigits_digits] at this
  omega

theorem candAt_injective (orig : Str) : Function.Injective (candAt orig) := by
  intro a b h
  cases a with
  | zero =>
    cases b with
    | zero => rfl
    | succ n =>
      have := congrArg List.length h
      simp [candAt] at this
  | succ n =>
    cases b with
    | zero =>
      have := congrArg List.length h
      simp [candAt] at this
    | succ m =>
      rw [candAt, candAt] at h
      have h2 := List.append_cancel_left h
      rw [List.cons_eq_cons] at h2
      exact congrArg Nat.succ (natToStr_succ_inj h2.2)

theorem fresh_case_id_not_mem (keys : List Str) (orig : Str) :
    fresh_case_id keys orig ∉ keys := by
  have hex : ∃ i ∈ List.range (keys.length + 1),
      (!(decide (candAt orig i ∈ keys))) = true := by
    by_contra hno
    push_neg at hno
    have hsub : (List.range (keys.length + 1)).map (candAt orig) ⊆ keys := by
      intro x hx
      obtain ⟨i, hi, rfl⟩ := List.mem_map.mp hx
      have := hno i hi
      simpa using this
    have hnd : ((List.range (keys.length + 1)).map (candAt orig)).Nodup :=
      (List.nodup_range _).map (candAt_injective orig)
    have hle := length_le_of_nodup_subset hnd hsub
    simp at hle
  have hs : ((List.range (keys.length + 1)).find?
      (fun i => !(decide (candAt orig i ∈ keys)))).isSome :=
    List.find?_isSome.mpr (by obtain ⟨i, hi, hp⟩ := hex; exact ⟨i, hi, hp⟩)
  obtain ⟨i, hfind⟩ := Option.isSome_iff_exists.mp hs
  rw [fresh_case_id, hfind]
  have := List.find?_some hfind
  simpa using this

theorem dictSet_fresh {β : Type} (l : List (Str × β)) (k : Str) (v : β)
    (h : k ∉ l.map Prod.fst) : dictSet l k v = l ++ [(k, v)] := by
  induction l with
  | nil => rfl
  | cons p rest ih =>
    rw [List.map_cons, List.mem_cons] at h
    push_neg at h
    cases p with
    | mk k' v' =>
      rw [dictSet, if_neg (by simpa using (Ne.symm h.1)), List.cons_append]
      rw [ih h.2]

/-- C5: storing an analysis and then looking the same unmodified file bytes up
by content hash returns exactly the stored result (hash identity, not name
matching: `check_cache_by_files` consults only `file_hash`).  The hypothesis
says no already-cached case carries the same content hash - without it the
scan would return the earlier case for identical bytes. -/
theorem cache_roundtrip_by_hash (s : CacheState) (files : List (List Nat))
    (file_names : List Str) (res : AnalysisResult) (now now2 : Int) (today : Str)
    (h : ∀ p ∈ s.cached_cases, p.2.file_hash ≠ generate_file_hash files) :
    (check_cache_by_files (cache_analysis s files file_names res now today).2 files now2).1
      = some res := by
  have hfresh : new_case_id s res today ∉ s.cached_cases.map Prod.fst :=
    fresh_case_id_not_mem _ _
  have hset : dictSet s.cached_cases (new_case_id s res today)
      (new_cached_case s files file_names res now today)
      = s.cached_cases ++ [(new_case_id s res today,
          new_cached_case s files file_names res now today)] :=
    dictSet_fresh _ _ _ hfresh
  have hnone : s.cached_cases.find?
      (fun p => p.2.file_hash = generate_file_hash files) = none :=
    List.find?_eq_none.mpr (fun p hp => by simpa using h p hp)
  simp only [cache_analysis, check_cache_by_files]
  rw [hset, List.find?_append, hnone]
  simp [new_cached_case]

/-- Witness for C5 at a concrete input: storing into the empty cache and
looking the bytes up again returns the stored result. -/
theorem cache_roundtrip_by_hash_witness :
    (check_cache_by_files
        (cache_analysis emptyCacheState [[1, 2, 3]] [str "a.pdf"] sampleAnalysis 5
          (str "20251012")).2 [[1, 2, 3]] 7).1 = some sampleAnalysis :=
  cache_roundtrip_by_hash emptyCacheState [[1, 2, 3]] [str "a.pdf"] sampleAnalysis 5 7
    (str "20251012") (by intro p hp; cases hp)

/-- C8: `cache_analysis` never overwrites an existing case entry - the chosen
case id is not already a key, the new entry is appended after all existing
entries - and two successive stores with the identical derived base slug
and the same date suffix yield distinct case ids (the second is disambiguated
by the incrementing numeric suffix of `fresh_case_id`). -/
theorem cache_analysis_collision_safe (s : CacheState) (files : List (List Nat))
    (file_names : List Str) (res : AnalysisResult) (now now2 : Int) (today : Str) :
    (cache_analysis s files file_names res now today).1 ∉ s.cached_cases.map Prod.fst ∧
    (cache_analysis s files file_names res now today).2.cached_cases
      = s.cached_cases ++ [((cache_analysis s files file_names res now today).1,
          new_cached_case s files file_names res now today)] ∧
    (cache_analysis s files file_names res now today).1
      ≠ (cache_analysis (cache_analysis s files file_names res now today).2 files file_names
          res now2 today).1 := by
  have hfresh : new_case_id s res today ∉ s.cached_cases.map Prod.fst :=
    fresh_case_id_not_mem _ _
  have happ : (cache_analysis s files file_names res now today).2.cached_cases
      = s.cached_cases ++ [((cache_analysis s files file_names res now today).1,
          new_cached_case s files file_names res now today)] := by
    simp only [cache_analysis]
    exact dictSet_fresh _ _ _ hfresh
  refine ⟨hfresh, happ, ?_⟩
  have hfresh2 : new_case_id (cache_analysis s files file_names res now today).2 res today
      ∉ (cache_analysis s files file_names res now today).2.cached_cases.map Prod.fst :=
    fresh_case_id_not_mem _ _
  have hmem : (cache_analysis s files file_names res now today).1
      ∈ (cache_analysis s files file_names res now today).2.cached_cases.map Prod.fst := by
    rw [happ, List.map_append]
    refine List.mem_append_right _ ?_
    rw [List.map_singleton]
    exact List.mem_singleton_self _
  intro heq
  rw [heq] at hmem
  exact hfresh2 hmem

/-- C10: a cache lookup that misses is side-effect-free - when
`check_cache_by_files` or `check_cache_by_content` returns absent, the whole
cache state (cached-case table with every `last_accessed` and `access_count`,
the name index, and the persistence-write counter) is unchanged. -/
theorem cache_miss_frame (s : CacheState) (files : List (List Nat)) (terms : List Str)
    (now now2 : Int) :
    ((check_cache_by_files s files now).1 = none → (check_cache_by_files s files now).2 = s) ∧
    ((check_cache_by_content s terms now2).1 = none →
      (check_cache_by_content s terms now2).2 = s) := by
  constructor
  · intro h
    simp only [check_cache_by_files] at h ⊢
    cases hf : List.find? (fun p => p.2.file_hash = generate_file_hash files) s.cached_cases with
    | some p => rw [hf] at h; exact Option.noConfusion h
    | none => rfl
  · intro h
    simp only [check_cache_by_content] at h ⊢
    cases hp : contentIndexHit s terms with
    | some p => rw [hp] at h; exact Option.noConfusion h
    | none =>
      rw [hp] at h
      cases hf : List.find? (fun p => fuzzyHit terms p.2) s.cached_cases with
      | some p => rw [hf] at h; exact Option.noConfusion h
      | none => rfl

/-- Witness for C10 at a concrete input: both lookups miss on the empty cache
and leave it untouched. -/
theorem cache_miss_frame_witness :
    (check_cache_by_files emptyCacheState [[9]] 3).2 = emptyCacheState ∧
      (check_cache_by_content emptyCacheState [str "manjunath"] 4).2 = emptyCacheState :=
  ⟨(cache_miss_frame emptyCacheState [[9]] [str "manjunath"] 3 4).1 (by decide),
   (cache_miss_frame emptyCacheState [[9]] [str "manjunath"] 3 4).2 (by decide)⟩

theorem dictGet_dictDel_ne {β : Type} (l : List (Str × β)) (k a : Str) (h : a ≠ k) :
    dictGet (dictDel l k) a = dictGet l a := by
  simp only [dictGet, dictDel]
  induction l with
  | nil => rfl
  | cons p rest ih =>
    by_cases hk : p.1 = k
    · have hpa : ¬(p.1 = a) := by rw [hk]; exact fun hh => h hh.symm
      rw [List.filter_cons_of_neg (by simpa using hk),
        List.find?_cons_of_neg _ (by simpa using hpa)]
      exact ih
    · rw [List.filter_cons_of_pos (by simpa using hk)]
      by_cases hpa : p.1 = a
      · rw [List.find?_cons_of_pos _ (by simpa using hpa),
          List.find?_cons_of_pos _ (by simpa using hpa)]
      · rw [List.find?_cons_of_neg _ (by simpa using hpa),
          List.find?_cons_of_neg _ (by simpa using hpa)]
        exact ih

theorem removeCaseAliases_pres (names : List Str) (cid : Str) :
    ∀ (idx : List (Str × Str)) (a cid' : Str), dictGet idx a = some cid' → cid' ≠ cid →
      dictGet (names.foldl
        (fun ix name =>
          if dictGet ix (normalize_name name) = some cid then dictDel ix (normalize_name name)
          else ix) idx) a = some cid' := by
  induction names with
  | nil => intro idx a cid' hget _; exact hget
  | cons n rest ih =>
    intro idx a cid' hget hne
    rw [List.foldl_cons]
    by_cases hd : dictGet idx (normalize_name n) = some cid
    · rw [if_pos hd]
      by_cases ha : a = normalize_name n
      · rw [ha] at hget
        rw [hget] at hd
        exact absurd (Option.some.inj hd) hne
      · exact ih _ a cid' (by rw [dictGet_dictDel_ne _ _ _ ha]; exact hget) hne
    · rw [if_neg hd]
      exact ih _ a cid' hget hne

theorem evictOne_index_pres (t : CacheState) (cid : Str) (a cid' : Str)
    (hget : dictGet t.name_index a = some cid') (hne : cid' ≠ cid) :
    dictGet (evictOne t cid).name_index a = some cid' := by
  rw [evictOne]
  cases hc : dictGet t.cached_cases cid with
  | none => exact hget
  | some c => exact removeCaseAliases_pres (caseAliases c) cid t.name_index a cid' hget hne

theorem foldl_evictOne_index_pres (ids : List Str) :
    ∀ (t : CacheState) (a cid' : Str), dictGet t.name_index a = some cid' → cid' ∉ ids →
      dictGet ((ids.foldl evictOne t)).name_index a = some cid' := by
  induction ids with
  | nil => intro t a cid' hget _; exact hget
  | cons i rest ih =>
    intro t a cid' hget hni
    rw [List.mem_cons] at hni
    push_neg at hni
    rw [List.foldl_cons]
    exact ih _ a cid' (evictOne_index_pres t i a cid' hget hni.1) hni.2

theorem evictOne_cached (t : CacheState) (cid : Str) :
    (evictOne t cid).cached_cases = dictDel t.cached_cases cid := by
  rw [evictOne]
  cases hc : dictGet t.cached_cases cid with
  | some c => rfl
  | none =>
    rw [dictGet] at hc
    have hfind := (Option.map_eq_none).mp hc
    rw [List.find?_eq_none] at hfind
    rw [dictDel, List.filter_eq_self.mpr]
    intro p hp
    simpa using fun hh => hfind p hp (by simpa using hh)

theorem foldl_evictOne_cached (ids : List Str) :
    ∀ t : CacheState, ((ids.foldl evictOne t)).cached_cases
      = t.cached_cases.filter (fun p => p.1 ∉ ids) := by
  induction ids with
  | nil =>
    intro t
    rw [List.foldl_nil, List.filter_eq_self.mpr]
    intro p _
    simp
  | cons i rest ih =>
    intro t
    rw [List.foldl_cons, ih, evictOne_cached, dictDel, List.filter_filter]
    refine List.filter_congr ?_
    intro p _
    by_cases h1 : p.1 = i
    · simp [h1]
    · by_cases h2 : p.1 ∈ rest <;> simp [h1, h2]

theorem keyNodup_unique {β : Type} {l : List (Str × β)} (h : (l.map Prod.fst).Nodup)
    {p q : Str × β} (hp : p ∈ l) (hq : q ∈ l) (hk : p.1 = q.1) : p = q := by
  induction l with
  | nil => cases hp
  | cons x rest ih =>
    rw [List.map_cons, List.nodup_cons] at h
    rcases List.mem_cons.mp hp with hp1 | hp1 <;> rcases List.mem_cons.mp hq with hq1 | hq1
    · rw [hp1, hq1]
    · exfalso
      apply h.1
      have hx : x.1 = q.1 := by rw [← hp1]; exact hk
      rw [hx]
      exact List.mem_map_of_mem Prod.fst hq1
    · exfalso
      apply h.1
      have hx : x.1 = p.1 := by rw [← hq1]; exact hk.symm
      rw [hx]
      exact List.mem_map_of_mem Prod.fst hp1
    · exact ih h.2 hp1 hq1

theorem mem_evictedIds_iff {s : CacheState} {cutoff : Int}
    (h : (s.cached_cases.map Prod.fst).Nodup) {p : Str × CachedCase}
    (hp : p ∈ s.cached_cases) :
    p.1 ∈ evictedIds s cutoff ↔ p.2.last_accessed < cutoff := by
  constructor
  · intro hm
    obtain ⟨q, hq, hk⟩ := List.mem_map.mp hm
    rw [List.mem_filter] at hq
    have hqp : q = p := keyNodup_unique h hq.1 hp hk
    rw [← hqp]
    simpa using hq.2
  · intro hl
    exact List.mem_map_of_mem Prod.fst (List.mem_filter.mpr ⟨hp, by simpa using hl⟩)

/-- C6: `clear_old_cache` removes exactly the cases whose `last_accessed`
precedes the cutoff `now - days` (the rest survive in order), returns their
count, an immediately repeated call (same clock) returns 0, and for each
evicted case an alias is removed from the name index only while it still
points at the evicted case - an alias mapped to any non-evicted case id
survives with its value unchanged. -/
theorem clear_old_cache_spec (s : CacheState) (now days : Int)
    (h : (s.cached_cases.map Prod.fst).Nodup) :
    (clear_old_cache s now days).2.cached_cases
      = s.cached_cases.filter (fun p => ¬ p.2.last_accessed < now - days) ∧
    (clear_old_cache s now days).1
      = (s.cached_cases.filter (fun p => p.2.last_accessed < now - days)).length ∧
    (clear_old_cache (clear_old_cache s now days).2 now days).1 = 0 ∧
    (∀ a cid', dictGet s.name_index a = some cid' → cid' ∉ evictedIds s (now - days) →
      dictGet (clear_old_cache s now days).2.name_index a = some cid') := by
  have hc : (clear_old_cache s now days).2.cached_cases
      = ((evictedIds s (now - days)).foldl evictOne s).cached_cases := by
    simp only [clear_old_cache]
    split <;> rfl
  have hi : (clear_old_cache s now days).2.name_index
      = ((evictedIds s (now - days)).foldl evictOne s).name_index := by
    simp only [clear_old_cache]
    split <;> rfl
  have hfilter : (clear_old_cache s now days).2.cached_cases
      = s.cached_cases.filter (fun p => ¬ p.2.last_accessed < now - days) := by
    rw [hc, foldl_evictOne_cached]
    refine List.filter_congr ?_
    intro p hp
    exact decide_eq_decide.mpr (not_congr (mem_evictedIds_iff h hp))
  refine ⟨hfilter, ?_, ?_, ?_⟩
  · simp only [clear_old_cache, evictedIds]
    rw [List.length_map]
  · have h2 : evictedIds (clear_old_cache s now days).2 (now - days) = [] := by
      rw [evictedIds, hfilter, List.filter_filter]
      rw [List.filter_congr (fun p _ => ?_), List.filter_false]
      · rw [List.map_nil]
      · by_cases hl : p.2.last_accessed < now - days <;> simp [hl]
    show (evictedIds (clear_old_cache s now days).2 (now - days)).length = 0
    rw [h2]
    rfl
  · intro a cid' hget hni
    rw [hi]
    exact foldl_evictOne_index_pres (evictedIds s (now - days)) s a cid' hget hni

/-- Witness for C6 at a concrete input (the eviction scenario of the spec's
test list): one case 40 ticks stale against a 30-tick horizon is evicted,
counted once, and a second sweep removes nothing. -/
theorem clear_old_cache_spec_witness :
    (clear_old_cache sampleState 100 30).1
        = (sampleState.cached_cases.filter (fun p => p.2.last_accessed < 100 - 30)).length ∧
      (clear_old_cache (clear_old_cache sampleState 100 30).2 100 30).1 = 0 :=
  ⟨(clear_old_cache_spec sampleState 100 30 (by decide)).2.1,
   (clear_old_cache_spec sampleState 100 30 (by decide)).2.2.1⟩

/-- Invariant carried by every job reachable from upload: the progress sits at
a fixed checkpoint, and a job still in `uploaded` state has progress 0. -/
def JobInv (j : PyJob) : Prop :=
  j.progress ∈ Checkpoints ∧ (j.status = .uploaded → j.progress = 0)

theorem jobInv_init (hit : Bool) : JobInv (uploadJob hit) := by
  cases hit
  · exact ⟨by decide, fun _ => rfl⟩
  · exact ⟨by decide, fun h => absurd h (by decide)⟩

theorem jobStep_inv {j j' : PyJob} (hinv : JobInv j) (hstep : JobStep j j') : JobInv j' := by
  cases hstep with
  | analyze h1 h2 =>
    exact ⟨show (10 : Nat) ∈ Checkpoints by decide, fun h => by cases h⟩
  | extract_text h1 h2 =>
    exact ⟨show (20 : Nat) ∈ Checkpoints by decide, fun h => by cases h⟩
  | summarize h1 h2 =>
    exact ⟨show (40 : Nat) ∈ Checkpoints by decide, fun h => by cases h⟩
  | extract_events h1 h2 =>
    exact ⟨show (60 : Nat) ∈ Checkpoints by decide, fun h => by cases h⟩
  | case_summary h1 h2 =>
    exact ⟨show (80 : Nat) ∈ Checkpoints by decide, fun h => by cases h⟩
  | recommend h1 h2 =>
    exact ⟨show (90 : Nat) ∈ Checkpoints by decide, fun h => by cases h⟩
  | finalize h1 h2 =>
    exact ⟨show (100 : Nat) ∈ Checkpoints by decide, fun h => by cases h⟩
  | fail h1 => exact ⟨hinv.1, fun h => by cases h⟩

theorem jobStep_mono {j j' : PyJob} (hinv : JobInv j) (hstep : JobStep j j') :
    j.progress ≤ j'.progress := by
  cases hstep with
  | analyze h1 h2 => rw [hinv.2 h2]; exact (by decide : (0 : Nat) ≤ 10)
  | extract_text h1 h2 => rw [h2]; exact (by decide : (10 : Nat) ≤ 20)
  | summarize h1 h2 => rw [h2]; exact (by decide : (20 : Nat) ≤ 40)
  | extract_events h1 h2 => rw [h2]; exact (by decide : (40 : Nat) ≤ 60)
  | case_summary h1 h2 => rw [h2]; exact (by decide : (60 : Nat) ≤ 80)
  | recommend h1 h2 => rw [h2]; exact (by decide : (80 : Nat) ≤ 90)
  | finalize h1 h2 => rw [h2]; exact (by decide : (90 : Nat) ≤ 100)
  | fail h1 => exact Nat.le_refl _

theorem jobInv_reachable {hit : Bool} {j : PyJob}
    (hreach : Relation.ReflTransGen JobStep (uploadJob hit) j) : JobInv j := by
  induction hreach with
  | refl => exact jobInv_init hit
  | tail h1 h2 ih => exact jobStep_inv ih h2

/-- C9: within one job's lifetime the progress value never decreases across
any sequence of upload, analyze, and pipeline-stage transitions, and it takes
only the fixed checkpoint values 0/10/20/40/60/80/90/100; upload itself
starts the job at 0, or at 100 directly on a cache hit. -/
theorem job_progress_contract (hit : Bool) (j j' : PyJob)
    (hreach : Relation.ReflTransGen JobStep (uploadJob hit) j) :
    (uploadJob hit).progress = (if hit then 100 else 0) ∧
    j.progress ∈ Checkpoints ∧
    (JobStep j j' → j.progress ≤ j'.progress ∧ j'.progress ∈ Checkpoints) := by
  have hinv := jobInv_reachable hreach
  refine ⟨by cases hit <;> rfl, hinv.1, ?_⟩
  intro hstep
  exact ⟨jobStep_mono hinv hstep, (jobStep_inv hinv hstep).1⟩

/-- Witness for C9 at a concrete trace: a freshly uploaded job sits at a
checkpoint and the analyze transition (progress 0 to 10) does not decrease
progress. -/
theorem job_progress_contract_witness :
    (uploadJob false).progress = (if false then 100 else 0) ∧
      (uploadJob false).progress ∈ Checkpoints ∧
      ((uploadJob false).progress ≤ (PyJob.mk .processing 10 false).progress ∧
        (PyJob.mk .processing 10 false).progress ∈ Checkpoints) :=
  have hthm := job_progress_contract false (uploadJob false)
    (PyJob.mk .processing 10 false) Relation.ReflTransGen.refl
  ⟨hthm.1, hthm.2.1, hthm.2.2 (JobStep.analyze (uploadJob false) rfl rfl)⟩
